import Mathlib

/-!
# Verification of the qFALL-crypto trapdoor/PSF core and its consuming schemes

Shallow embedding of the G-trapdoor generation (`sample/g_trapdoor`), the
`DualRegevIBE` identity-based encryption scheme, the `FDH` hash-then-sign
signature scheme and the `CCSfromIBE` construction, together with proofs of
the specified properties.

Matrices over the modulus are modelled as Mathlib matrices over `ZMod q`;
the rational arithmetic of the parameter validators (arbitrary-precision
rationals with `sqrt`/`log` in the code) is modelled over `ℝ`, so the
validators become relations between an instance and the returned
`Except String Unit` value; the scheme-owned memoization storages (Rust
`HashMap<String, _>`) are modelled as association lists queried with
`List.lookup`.  Randomized sampling routines (`samp_p`, the trapdoor
distribution) draw from an ambient source of randomness; each draw is
modelled by an explicit parameter, so a theorem quantifying over it covers
every outcome of the randomness.  Functions supplied by the external
`qfall_math` arithmetic crate (matrix arithmetic, `Display` encodings,
SHA-256 hashing) are fields of the embedded structures.
-/

namespace QfallCrypto

/-! ## G-trapdoor generation (`sample/g_trapdoor`)

`gadget_default.rs` is in the sources; the bodies of `gen_gadget_mat` and
`gen_trapdoor` live in `gadget_classical.rs`, which is not part of the
excerpt, so they are modelled from the spec (§4.2, §4.3). -/

/-- Modelled from the spec: `gadget_vector(k, base) = [1, base, …, base^(k-1)]`
(§4.2; body in `gadget_classical.rs`, absent from the excerpt). -/
def gadget_vector (q : ℕ) (k : ℕ) (base : ℤ) : Fin k → ZMod q :=
  fun i => (base : ZMod q) ^ (i : ℕ)

/-- Modelled from the spec: `gadget_matrix(n, k, base) = I_n ⊗ gadget_vector`
(§4.2; `gen_gadget_mat` in `gadget_classical.rs`, absent from the excerpt).
The `n·k` columns are indexed by `Fin n × Fin k`. -/
def gen_gadget_mat (q : ℕ) (n k : ℕ) (base : ℤ) :
    Matrix (Fin n) (Fin n × Fin k) (ZMod q) :=
  fun i jl => if i = jl.1 then gadget_vector q k base jl.2 else 0

/-- Modelled from the spec: `gen_trapdoor(params, A_bar, tag)` computes
`A = [A_bar | tag·G − A_bar·R]` where `R` is sampled from the trapdoor
distribution (§4.3; body in `gadget_classical.rs`, absent from the excerpt).
The sampled `R` is passed explicitly, standing for one outcome of the
internal randomness; the function returns the pair `(A, R)`. -/
def gen_trapdoor (q : ℕ) (n k mbar : ℕ) (base : ℤ)
    (aBar : Matrix (Fin n) (Fin mbar) (ZMod q))
    (tag : Matrix (Fin n) (Fin n) (ZMod q))
    (R : Matrix (Fin mbar) (Fin n × Fin k) (ZMod q)) :
    Matrix (Fin n) (Fin mbar ⊕ Fin n × Fin k) (ZMod q) ×
      Matrix (Fin mbar) (Fin n × Fin k) (ZMod q) :=
  (Matrix.fromColumns aBar (tag * gen_gadget_mat q n k base - aBar * R), R)

/-- `gen_trapdoor_default(n, q)` from `gadget_default.rs`: samples a uniform
`a_bar`, sets `tag = I_n`, and delegates to `gen_trapdoor` with the default
parameters (`base = 2`).  The sampled `a_bar` and `R` are passed explicitly,
standing for one outcome of the internal randomness. -/
def gen_trapdoor_default (q : ℕ) (n k mbar : ℕ)
    (aBar : Matrix (Fin n) (Fin mbar) (ZMod q))
    (R : Matrix (Fin mbar) (Fin n × Fin k) (ZMod q)) :
    Matrix (Fin n) (Fin mbar ⊕ Fin n × Fin k) (ZMod q) ×
      Matrix (Fin mbar) (Fin n × Fin k) (ZMod q) :=
  gen_trapdoor q n k mbar 2 aBar 1 R

/-- The block matrix `[R; I]` the trapdoor is checked against
(`ensure_is_trapdoor` in `gadget_default.rs`). -/
def trapdoor_check_mat (q : ℕ) (n k mbar : ℕ)
    (R : Matrix (Fin mbar) (Fin n × Fin k) (ZMod q)) :
    Matrix (Fin mbar ⊕ Fin n × Fin k) (Fin n × Fin k) (ZMod q) :=
  Matrix.fromRows R 1

/-! ## `DualRegevIBE` (`construction/identity_based_encryption/dual_regev_ibe.rs`)

The struct couples a `DualRegev` instance (fields `n`, `m`, `q`, `alpha`, all
defined in `dual_regev.rs`, outside the excerpt, but only used as plain
numbers here), a `PSFGPV` (of which only the width `s` is read), and the
`HashMap<String, MatZ>` storage.  The numeric fields are flattened into the
structure; `q` is the modulus (a positive integer); the `Display` encodings
of `MatZq`/`MatZ`/`MatQ`, the SHA-256 hash into the range, and the PSF
sampler `samp_p` are functions of the external crates and are therefore
fields of the structure, over which theorems quantify. -/

structure DualRegevIBE (PK SK0 SK1 Range Dom : Type) where
  n : ℤ
  m : ℤ
  q : ℤ
  alpha : ℚ
  s : ℚ
  dispPK : PK → String
  dispSK0 : SK0 → String
  dispSK1 : SK1 → String
  hashId : String → Range
  sampP : ℕ → PK → SK0 × SK1 → Range → Dom
  storage : List (String × Dom)

/-- Error message of the first security check in `check_security`. -/
def secErr1 : String :=
  "Security is not guaranteed as q < 5 * r * (m + 1), but q >= 5 * r * (m + 1) is required."

/-- Error message of the second security check in `check_security`. -/
def secErr2 : String :=
  "Security is not guaranteed as r < sqrt(m), but r >= sqrt(m) is required."

/-- Error message of the third security check in `check_security`. -/
def secErr3 : String :=
  "Security is not guaranteed as m <= (n + 1) * log(q), but m > (n + 1) * log(q) is required."

/-- `DualRegevIBE::check_security`, as the relation between an instance and
the returned `Result<(), MathError>`: the guards are tested in the order of
the code, and the first failing guard's error is returned.  The comparisons
are over `ℝ` (the code compares arbitrary-precision rationals produced by
`sqrt`/`log`), hence a relation rather than a boolean function. -/
def check_security {PK SK0 SK1 Range Dom : Type}
    (I : DualRegevIBE PK SK0 SK1 Range Dom) (r : Except String Unit) : Prop :=
  ((I.q : ℝ) < 5 * (I.s : ℝ) * ((I.m : ℝ) + 1) ∧ r = Except.error secErr1) ∨
  (¬ ((I.q : ℝ) < 5 * (I.s : ℝ) * ((I.m : ℝ) + 1)) ∧ (I.s : ℝ) < Real.sqrt (I.m : ℝ) ∧
    r = Except.error secErr2) ∨
  (¬ ((I.q : ℝ) < 5 * (I.s : ℝ) * ((I.m : ℝ) + 1)) ∧ ¬ ((I.s : ℝ) < Real.sqrt (I.m : ℝ)) ∧
    (I.m : ℝ) ≤ ((I.n : ℝ) + 1) * Real.logb 2 (I.q : ℝ) ∧ r = Except.error secErr3) ∨
  (¬ ((I.q : ℝ) < 5 * (I.s : ℝ) * ((I.m : ℝ) + 1)) ∧ ¬ ((I.s : ℝ) < Real.sqrt (I.m : ℝ)) ∧
    ¬ ((I.m : ℝ) ≤ ((I.n : ℝ) + 1) * Real.logb 2 (I.q : ℝ)) ∧ r = Except.ok ())

/-- Error message of the `n`-guard in `check_correctness`. -/
def corrErr0 : String := "n must be chosen bigger than 1."

/-- Error message of the α-check in `check_correctness`. -/
def corrErr1 : String :=
  "Correctness is not guaranteed as α > 1/(r * sqrt(m) * log(n)), but α <= 1/(2 * r * sqrt(m) * log(n)) is required."

/-- `DualRegevIBE::check_correctness`, as the relation between an instance
and the returned `Result<(), MathError>`.  Note the α-guard of the code:
`alpha > 1 / (2 * s * sqrt(m + 1)) * log2(n)` — by Rust operator precedence
the factor `log2(n)` multiplies the quotient, it does not divide it. -/
def check_correctness {PK SK0 SK1 Range Dom : Type}
    (I : DualRegevIBE PK SK0 SK1 Range Dom) (r : Except String Unit) : Prop :=
  (I.n ≤ 1 ∧ r = Except.error corrErr0) ∨
  (¬ (I.n ≤ 1) ∧
    (I.alpha : ℝ) > 1 / (2 * (I.s : ℝ) * Real.sqrt ((I.m : ℝ) + 1)) * Real.logb 2 (I.n : ℝ) ∧
    r = Except.error corrErr1) ∨
  (¬ (I.n ≤ 1) ∧
    ¬ ((I.alpha : ℝ) > 1 / (2 * (I.s : ℝ) * Real.sqrt ((I.m : ℝ) + 1)) * Real.logb 2 (I.n : ℝ)) ∧
    r = Except.ok ())

/-- The storage key built by `DualRegevIBE::extract`:
`format!("{master_pk} {} {} {identity}", master_sk.0, master_sk.1)`. -/
def DualRegevIBE.extract_key {PK SK0 SK1 Range Dom : Type}
    (I : DualRegevIBE PK SK0 SK1 Range Dom)
    (masterPk : PK) (masterSk : SK0 × SK1) (identity : String) : String :=
  I.dispPK masterPk ++ " " ++ I.dispSK0 masterSk.1 ++ " " ++
    I.dispSK1 masterSk.2 ++ " " ++ identity

/-- `DualRegevIBE::extract`: return the stored secret key when the key
string is present, otherwise hash the identity, sample a preimage with
`samp_p` (the draw of randomness is the explicit argument `rand`) and insert
it into the storage. -/
def DualRegevIBE.extract {PK SK0 SK1 Range Dom : Type}
    (I : DualRegevIBE PK SK0 SK1 Range Dom)
    (masterPk : PK) (masterSk : SK0 × SK1) (identity : String) (rand : ℕ) :
    Dom × DualRegevIBE PK SK0 SK1 Range Dom :=
  match I.storage.lookup (I.extract_key masterPk masterSk identity) with
  | some v => (v, I)
  | none =>
      let u := I.hashId identity
      let secretKey := I.sampP rand masterPk masterSk u
      (secretKey,
        { I with storage :=
            (I.extract_key masterPk masterSk identity, secretKey) :: I.storage })

/-- `i64::MAX`, the bound of the `i64::try_from(&n).unwrap()` conversion in
`new_from_n`. -/
def i64Max : ℤ := 9223372036854775807

/-- The exponent chosen by the `match` in `DualRegevIBE::new_from_n`. -/
def new_from_n_power (n : ℤ) : ℕ :=
  if 2 ≤ n ∧ n ≤ 3 then 10
  else if n = 4 then 7
  else if 5 ≤ n ∧ n ≤ 7 then 6
  else 5

/-- `DualRegevIBE::new_from_n`: `none` models a panic.  The function panics
on the explicit guard `n < 2`, before any parameter generation or sampling;
then `i64::try_from(&n).unwrap()` panics when `n` exceeds `i64::MAX`;
otherwise the exponent and the prime-sampling bounds
`[n^power / 2, n^power]` are computed (`div_ceil` for the lower bound) and
the instance is built.  The sampling of the prime `q` and
`GadgetParameters::init_default` live in external files and always succeed
for these bounds, so the model returns the computed data. -/
def new_from_n (n : ℤ) : Option (ℕ × ℤ × ℤ) :=
  if n < 2 then none
  else if i64Max < n then none
  else
    let power := new_from_n_power n
    let upper : ℤ := n ^ power
    let lower : ℤ := (upper + 1) / 2
    some (power, lower, upper)

/-! ## `FDH` (`construction/signature/fdh.rs`)

The struct is generic over the PSF, the hash and the associated types; the
embedding keeps that genericity.  The PSF capability set is the record
`PSFOps`; `samp_p` takes the draw of randomness explicitly. -/

structure PSFOps (A Td Dom Range : Type) where
  sampP : ℕ → A → Td → Range → Dom
  fA : A → Dom → Range
  checkDomain : Dom → Bool

structure FDH (A Td Dom Range : Type) where
  psf : PSFOps A Td Dom Range
  hash : String → Range
  storage : List (String × Dom)

/-- `FDH::sign`: look the message up in the storage and return the stored
signature if present; otherwise hash the message, sample a preimage with
`samp_p` (randomness draw `rand`) and insert it under the message. -/
def FDH.sign {A Td Dom Range : Type} (F : FDH A Td Dom Range)
    (m : String) (sk : Td) (pk : A) (rand : ℕ) : Dom × FDH A Td Dom Range :=
  match F.storage.lookup m with
  | some sigma => (sigma, F)
  | none =>
      let u := F.hash m
      let signature := F.psf.sampP rand pk sk u
      (signature, { F with storage := (m, signature) :: F.storage })

/-- `FDH::vfy`: false when the signature is outside the domain, otherwise
compare `f_a(pk, sigma)` with `hash(m)`.  It takes no trapdoor and returns
no new state. -/
def FDH.vfy {A Td Dom Range : Type} [DecidableEq Range] (F : FDH A Td Dom Range)
    (m : String) (sigma : Dom) (pk : A) : Bool :=
  if ¬ F.psf.checkDomain sigma then false
  else decide (F.psf.fA pk sigma = F.hash m)

/-- The persisted form of an `FDH` instance:
`{ parameters, key material, storage: mapping<key-string, domain-element> }`
(spec §6); the storage map is persisted as its list of entries. -/
structure FDHSerialized (A Td Dom Range : Type) where
  psf : PSFOps A Td Dom Range
  hash : String → Range
  entries : List (String × Dom)

/-- Modelled from the spec: the serde `Serialize` implementation of `FDH`
(derived in `fdh.rs`; companion code in `fdh/serialize.rs`, absent from the
excerpt) writes the structured record with the storage as its entries. -/
def FDH.serialize {A Td Dom Range : Type} (F : FDH A Td Dom Range) :
    FDHSerialized A Td Dom Range :=
  ⟨F.psf, F.hash, F.storage⟩

/-- Modelled from the spec: the serde `Deserialize` implementation of `FDH`
(`fdh/serialize.rs`, absent from the excerpt) reads the record back and
rebuilds the storage `HashMap` by inserting the persisted entries one by
one (compare the `reload_hashmap` test in `fdh/gpv.rs`). -/
def FDH.deserialize {A Td Dom Range : Type} (S : FDHSerialized A Td Dom Range) :
    FDH A Td Dom Range :=
  ⟨S.psf, S.hash, S.entries.foldl (fun acc e => e :: acc) []⟩

/-! ## `CCSfromIBE` (`construction/pk_encryption/ccs_from_ibe.rs`)

Generic over an `IBEScheme` and a `SignatureScheme` (traits declared outside
the excerpt); the capability sets the construction consumes are fields.
`dec` only needs the signature verifier, the IBE extraction/decryption, the
`ToString` of IBE ciphertexts and the `Into<Identity>` conversion of
verification keys.  IBE extraction is stateful (it owns the memoization
storage), so it maps an `IBEState` to a new one. -/

structure CCSfromIBE (MPK MSK SK C SPK SSig IBEState : Type) where
  sigVfy : String → SSig → SPK → Bool
  ibeExtract : IBEState → MPK → MSK → String → SK × IBEState
  ibeDec : SK → C → ℤ
  cipherToString : C → String
  vrfyKeyToIdentity : SPK → String
  ibeState : IBEState

/-- `CCSfromIBE::dec` on `cipher = (vrfy_key, c, sigma)`: if the signature
`sigma` does not verify for `c` under `vrfy_key`, return the sentinel
`Z::MINUS_ONE` at once (the IBE state is untouched); otherwise extract the
secret key for identity `vrfy_key` and decrypt. -/
def CCSfromIBE.dec {MPK MSK SK C SPK SSig IBEState : Type}
    (S : CCSfromIBE MPK MSK SK C SPK SSig IBEState)
    (sk : MPK × MSK) (cipher : SPK × C × SSig) :
    ℤ × CCSfromIBE MPK MSK SK C SPK SSig IBEState :=
  if S.sigVfy (S.cipherToString cipher.2.1) cipher.2.2 cipher.1 = false then
    (-1, S)
  else
    let e := S.ibeExtract S.ibeState sk.1 sk.2 (S.vrfyKeyToIdentity cipher.1)
    (S.ibeDec e.1 cipher.2.1, { S with ibeState := e.2 })

/-! ## Concrete instances used by witnesses and counterexamples -/

/-- A `DualRegevIBE` instance with parameters `n = 1`, `m = 64`, `q = 4096`,
`α = 0`, `s = 8`, for which all three security inequalities hold. -/
def DRI0 : DualRegevIBE Unit Unit Unit Unit Unit where
  n := 1
  m := 64
  q := 4096
  alpha := 0
  s := 8
  dispPK := fun _ => ""
  dispSK0 := fun _ => ""
  dispSK1 := fun _ => ""
  hashId := fun _ => ()
  sampP := fun _ _ _ _ => ()
  storage := []

/-- A `DualRegevIBE` instance with `n = 4`, `m = 3`, `α = 1/4`, `s = 1`: the
α-guard of `check_correctness` passes although `α` violates the documented
bound `α ≤ 1/(2·s·√(m+1)·log₂ n)`. -/
def DRI2 : DualRegevIBE Unit Unit Unit Unit Unit where
  n := 4
  m := 3
  q := 17
  alpha := 1/4
  s := 1
  dispPK := fun _ => ""
  dispSK0 := fun _ => ""
  dispSK1 := fun _ => ""
  hashId := fun _ => ()
  sampP := fun _ _ _ _ => ()
  storage := []

/-- A `DualRegevIBE` instance with one stored secret key, used to witness
storage preservation of `extract`. -/
def DRI8 : DualRegevIBE Unit Unit Unit Unit ℤ where
  n := 4
  m := 3
  q := 17
  alpha := 0
  s := 1
  dispPK := fun _ => "p"
  dispSK0 := fun _ => "s"
  dispSK1 := fun _ => "t"
  hashId := fun _ => ()
  sampP := fun _ _ _ _ => 7
  storage := [("k0", 3)]

/-- A concrete `FDH` instance whose `samp_p` depends on the public key, used
to exhibit the storage key of `sign`. -/
def F3 : FDH ℤ ℤ ℤ ℤ where
  psf :=
    { sampP := fun _ pk _ u => pk + u
      fA := fun _ d => d
      checkDomain := fun _ => true }
  hash := fun _ => 0
  storage := []

/-- A concrete `FDH` instance with one stored signature, used to witness
storage preservation of `sign`. -/
def F8 : FDH ℤ ℤ ℤ ℤ where
  psf :=
    { sampP := fun _ _ _ _ => 9
      fA := fun _ d => d
      checkDomain := fun _ => true }
  hash := fun _ => 0
  storage := [("a", 5)]

/-- A concrete `FDH` instance with one stored signature, used to witness the
serialization round trip. -/
def F9 : FDH ℤ ℤ ℤ ℤ where
  psf :=
    { sampP := fun _ _ _ _ => 2
      fA := fun _ d => d
      checkDomain := fun _ => true }
  hash := fun _ => 0
  storage := [("a", 0)]

/-- A concrete `CCSfromIBE` instance whose signature verifier rejects
everything, used to witness the sentinel on decryption. -/
def CCS5 : CCSfromIBE Unit Unit Unit Unit Unit Unit Unit where
  sigVfy := fun _ _ _ => false
  ibeExtract := fun st _ _ _ => ((), st)
  ibeDec := fun _ _ => 0
  cipherToString := fun _ => ""
  vrfyKeyToIdentity := fun _ => ""
  ibeState := ()

/-! ## Helper lemmas on association-list storages -/

theorem lookup_cons_split {Dom : Type} (k a : String) (b : Dom)
    (l : List (String × Dom)) :
    List.lookup k ((a, b) :: l) = if k = a then some b else List.lookup k l := by
  by_cases h : k = a
  · simp [List.lookup, h]
  · have hb : (k == a) = false := by
      simpa using h
    simp [List.lookup, hb, h]

theorem lookup_preserved_cons {Dom : Type} (k a : String) (b v : Dom)
    (l : List (String × Dom)) (hk : List.lookup k l = some v)
    (ha : List.lookup a l = none) :
    List.lookup k ((a, b) :: l) = some v := by
  rw [lookup_cons_split]
  have hne : k ≠ a := by
    intro h
    rw [h, ha] at hk
    exact Option.noConfusion hk
  simp [hne, hk]

theorem foldl_cons_eq_reverse_append {α : Type} (l acc : List α) :
    l.foldl (fun a x => x :: a) acc = l.reverse ++ acc := by
  induction l generalizing acc with
  | nil => simp
  | cons x t ih => simp [List.foldl, ih]

theorem lookup_eq_none_of_not_mem_keys {Dom : Type} (k : String)
    (l : List (String × Dom)) (h : k ∉ l.map Prod.fst) :
    List.lookup k l = none := by
  induction l with
  | nil => rfl
  | cons p t ih =>
      obtain ⟨a, b⟩ := p
      simp only [List.map_cons, List.mem_cons] at h
      push_neg at h
      rw [lookup_cons_split]
      simp [h.1, ih h.2]

theorem lookup_append_split {Dom : Type} (k : String)
    (l1 l2 : List (String × Dom)) :
    List.lookup k (l1 ++ l2) = (List.lookup k l1).or (List.lookup k l2) := by
  induction l1 with
  | nil => simp [List.lookup]
  | cons p t ih =>
      obtain ⟨a, b⟩ := p
      by_cases h : k = a
      · subst h
        simp [List.cons_append, lookup_cons_split]
      · simp [List.cons_append, lookup_cons_split, h, ih]

theorem lookup_reverse_of_nodup_keys {Dom : Type} (k : String)
    (l : List (String × Dom)) (h : (l.map Prod.fst).Nodup) :
    List.lookup k l.reverse = List.lookup k l := by
  induction l with
  | nil => rfl
  | cons p t ih =>
      obtain ⟨a, b⟩ := p
      simp only [List.map_cons, List.nodup_cons] at h
      rw [List.reverse_cons, lookup_append_split, ih h.2, lookup_cons_split]
      by_cases hk : k = a
      · subst hk
        rw [lookup_eq_none_of_not_mem_keys k t h.1]
        rw [lookup_cons_split]
        simp [List.lookup]
      · rw [lookup_cons_split]
        simp [List.lookup, hk]

end QfallCrypto

namespace QfallCrypto

/-! ## Claim theorems -/

/-- C1: for every security parameter `n ≥ 1`, modulus `q > 1` and every
outcome `(a_bar, R)` of the internal randomness, `gen_trapdoor_default`
returns a pair `(A, R)` with `A * [R; I] = G` over `ZMod q`; equivalently,
the tag part of `A` is exactly `tag·G − A_bar·R` with `tag = I`. -/
theorem gen_trapdoor_default_is_trapdoor (q : ℕ) (n k mbar : ℕ)
    (hn : 1 ≤ n) (hq : 1 < q)
    (aBar : Matrix (Fin n) (Fin mbar) (ZMod q))
    (R : Matrix (Fin mbar) (Fin n × Fin k) (ZMod q)) :
    (gen_trapdoor_default q n k mbar aBar R).1 *
        trapdoor_check_mat q n k mbar ((gen_trapdoor_default q n k mbar aBar R).2) =
      gen_gadget_mat q n k 2 := by
  unfold gen_trapdoor_default gen_trapdoor trapdoor_check_mat
  rw [Matrix.fromColumns_mul_fromRows]
  rw [Matrix.mul_one, Matrix.one_mul]
  abel

/-- Witness for C1 at `n = k = mbar = 1`, `q = 2`, `a_bar = 0`, `R = 0`. -/
theorem gen_trapdoor_default_is_trapdoor_witness :
    1 ≤ 1 ∧ 1 < 2 ∧
      (gen_trapdoor_default 2 1 1 1 0 0).1 *
          trapdoor_check_mat 2 1 1 1 ((gen_trapdoor_default 2 1 1 1 0 0).2) =
        gen_gadget_mat 2 1 1 2 :=
  ⟨le_refl 1, Nat.one_lt_two,
    gen_trapdoor_default_is_trapdoor 2 1 1 1 (le_refl 1) Nat.one_lt_two 0 0⟩

/-- C4: `check_security` returns `Ok` if and only if the three inequalities
`q ≥ 5·s·(m+1)`, `s ≥ √m` and `m > (n+1)·log₂ q` all hold; when it returns
an error, the message is the one naming the violated inequality. -/
theorem check_security_ok_iff {PK SK0 SK1 Range Dom : Type}
    (I : DualRegevIBE PK SK0 SK1 Range Dom) (r : Except String Unit)
    (h : check_security I r) :
    (r = Except.ok () ↔
      ((I.q : ℝ) ≥ 5 * (I.s : ℝ) * ((I.m : ℝ) + 1) ∧
       (I.s : ℝ) ≥ Real.sqrt (I.m : ℝ) ∧
       (I.m : ℝ) > ((I.n : ℝ) + 1) * Real.logb 2 (I.q : ℝ))) ∧
    (∀ e, r = Except.error e →
      (e = secErr1 ∧ (I.q : ℝ) < 5 * (I.s : ℝ) * ((I.m : ℝ) + 1)) ∨
      (e = secErr2 ∧ (I.s : ℝ) < Real.sqrt (I.m : ℝ)) ∨
      (e = secErr3 ∧ (I.m : ℝ) ≤ ((I.n : ℝ) + 1) * Real.logb 2 (I.q : ℝ))) := by
  rcases h with ⟨h1, hr⟩ | ⟨h1, h2, hr⟩ | ⟨h1, h2, h3, hr⟩ | ⟨h1, h2, h3, hr⟩ <;> subst hr
  · refine ⟨⟨fun he => by simp at he, fun hc => absurd h1 (not_lt.mpr hc.1)⟩, ?_⟩
    intro e he
    left
    refine ⟨?_, h1⟩
    injection he with he'
    exact he'.symm
  · refine ⟨⟨fun he => by simp at he, fun hc => absurd h2 (not_lt.mpr hc.2.1)⟩, ?_⟩
    intro e he
    right; left
    refine ⟨?_, h2⟩
    injection he with he'
    exact he'.symm
  · refine ⟨⟨fun he => by simp at he, fun hc => absurd h3 (not_le.mpr hc.2.2)⟩, ?_⟩
    intro e he
    right; right
    refine ⟨?_, h3⟩
    injection he with he'
    exact he'.symm
  · refine ⟨⟨fun _ => ⟨not_lt.mp h1, not_lt.mp h2, not_le.mp h3⟩, fun _ => rfl⟩, ?_⟩
    intro e he
    exact absurd he (by simp)

/-- Witness for C4: the instance `DRI0` (`n = 1`, `m = 64`, `q = 4096`,
`s = 8`) satisfies all three inequalities and `check_security` accepts
it. -/
theorem check_security_ok_iff_witness :
    check_security DRI0 (Except.ok ()) ∧
      ((Except.ok () : Except String Unit) = Except.ok () ↔
        ((DRI0.q : ℝ) ≥ 5 * (DRI0.s : ℝ) * ((DRI0.m : ℝ) + 1) ∧
         (DRI0.s : ℝ) ≥ Real.sqrt (DRI0.m : ℝ) ∧
         (DRI0.m : ℝ) > ((DRI0.n : ℝ) + 1) * Real.logb 2 (DRI0.q : ℝ))) := by
  have hm : ((DRI0.m : ℝ)) = 64 := by norm_num [DRI0]
  have hq : ((DRI0.q : ℝ)) = 4096 := by norm_num [DRI0]
  have hn : ((DRI0.n : ℝ)) = 1 := by norm_num [DRI0]
  have hs : ((DRI0.s : ℝ)) = 8 := by norm_num [DRI0]
  have hsqrt : Real.sqrt (64 : ℝ) = 8 := by
    rw [show (64 : ℝ) = 8 ^ 2 by norm_num]
    exact Real.sqrt_sq (by norm_num)
  have hlogb : Real.logb 2 (4096 : ℝ) = 12 := by
    rw [show (4096 : ℝ) = 2 ^ (12 : ℕ) by norm_num, Real.logb_pow,
      Real.logb_self_eq_one (by norm_num)]
    norm_num
  have hcs : check_security DRI0 (Except.ok ()) := by
    right; right; right
    refine ⟨?_, ?_, ?_, rfl⟩
    · rw [hq, hs, hm]; norm_num
    · rw [hs, hm, hsqrt]; norm_num
    · rw [hm, hn, hq, hlogb]; norm_num
  exact ⟨hcs, (check_security_ok_iff DRI0 (Except.ok ()) hcs).1⟩

/-- C2 (code bug): on the instance `DRI2` (`n = 4`, `m = 3`, `s = 1`,
`α = 1/4`) the code's `check_correctness` returns `Ok`, although
`α > 1/(2·s·√(m+1)·log₂ n)`: the guard of the code multiplies by `log₂ n`
instead of dividing by it, contradicting its own doc comment, its error
message and the choice of `α` in `new_from_n`. -/
theorem check_correctness_log_multiplied :
    check_correctness DRI2 (Except.ok ()) ∧
      ¬ ((DRI2.alpha : ℝ) ≤
          1 / (2 * (DRI2.s : ℝ) * Real.sqrt ((DRI2.m : ℝ) + 1) *
            Real.logb 2 (DRI2.n : ℝ))) := by
  have hm : ((DRI2.m : ℝ)) + 1 = 4 := by norm_num [DRI2]
  have hn : ((DRI2.n : ℝ)) = 4 := by norm_num [DRI2]
  have hs : ((DRI2.s : ℝ)) = 1 := by norm_num [DRI2]
  have ha : ((DRI2.alpha : ℝ)) = 1 / 4 := by norm_num [DRI2]
  have hsqrt : Real.sqrt (4 : ℝ) = 2 := by
    rw [show (4 : ℝ) = 2 ^ 2 by norm_num]
    exact Real.sqrt_sq (by norm_num)
  have hlogb : Real.logb 2 (4 : ℝ) = 2 := by
    rw [show (4 : ℝ) = 2 ^ (2 : ℕ) by norm_num, Real.logb_pow,
      Real.logb_self_eq_one (by norm_num)]
    norm_num
  constructor
  · right; right
    refine ⟨by decide, ?_, rfl⟩
    rw [ha, hs, hm, hsqrt, hn, hlogb]
    norm_num
  · rw [ha, hs, hm, hsqrt, hn, hlogb]
    norm_num

/-- C10 counterexample: `n = 2^63` satisfies `n ≥ 2`, yet `new_from_n`
panics (at the `i64::try_from(&n).unwrap()` conversion), so no instance is
constructed. -/
theorem new_from_n_i64_overflow :
    (2 : ℤ) ≤ 2 ^ 63 ∧ new_from_n (2 ^ 63) = none := by
  constructor
  · norm_num
  · unfold new_from_n i64Max
    norm_num

/-- C10 amended: `new_from_n` panics exactly for `n < 2` (the explicit
guard, hit before any parameter generation or sampling — this covers
`n = 1`) and for `n > i64::MAX` (the `i64::try_from(&n).unwrap()`); for
every `2 ≤ n ≤ i64::MAX` the checks pass and an instance is constructed. -/
theorem new_from_n_isSome_iff (n : ℤ) :
    (new_from_n n).isSome = true ↔ (2 ≤ n ∧ n ≤ i64Max) := by
  unfold new_from_n
  by_cases h1 : n < 2
  · simp only [h1, if_true, Option.isSome_none]
    constructor
    · intro hfalse; exact absurd hfalse (by simp)
    · intro hc; omega
  · by_cases h2 : i64Max < n
    · simp only [h1, if_false, h2, if_true, Option.isSome_none]
      constructor
      · intro hfalse; exact absurd hfalse (by simp)
      · intro hc; omega
    · simp only [h1, if_false, h2, Option.isSome_some, true_iff]
      omega

/-- C3 counterexample: on the instance `F3`, after `sign("a", sk₁ = 0,
pk₁ = 0)` the storage entry is keyed by the message alone, and a later
`sign("a", sk₂ = 0, pk₂ = 1)` with a different key pair returns the stored
signature of the first call, which differs from the preimage a fresh
`samp_p` under `pk₂` would produce. -/
theorem fdh_sign_ignores_key_pair :
    ((F3.sign "a" 0 0 0).2).storage = [("a", 0)] ∧
    ((F3.sign "a" 0 0 0).2.sign "a" 0 1 0).1 = (F3.sign "a" 0 0 0).1 ∧
    F3.psf.sampP 0 1 0 (F3.hash "a") ≠ (F3.sign "a" 0 0 0).1 := by
  refine ⟨by decide, by decide, by decide⟩

/-- C3 amended: the memoization storage of `FDH::sign` is keyed by the
message alone: after `sign(m, sk₁, pk₁)`, any later `sign(m, sk₂, pk₂)` on
the same instance returns the stored signature of the first call and leaves
the instance unchanged, whatever the key pair and the randomness. -/
theorem fdh_sign_keyed_by_message_only {A Td Dom Range : Type}
    (F : FDH A Td Dom Range) (m : String) (sk : Td) (pk : A) (rand : ℕ)
    (sk' : Td) (pk' : A) (rand' : ℕ) :
    (F.sign m sk pk rand).2.sign m sk' pk' rand' =
      ((F.sign m sk pk rand).1, (F.sign m sk pk rand).2) := by
  unfold FDH.sign
  cases h : F.storage.lookup m with
  | some sigma => simp [h]
  | none => simp [h, lookup_cons_split]

/-- C5: when the signature of `cipher = (vrfy_key, c, sigma)` does not
verify, `CCSfromIBE::dec` returns the sentinel `-1` and leaves the scheme
(in particular the IBE storage) untouched; the embedding is a total
function, so no exception or panic occurs. -/
theorem ccs_dec_invalid_signature_sentinel {MPK MSK SK C SPK SSig IBEState : Type}
    (S : CCSfromIBE MPK MSK SK C SPK SSig IBEState)
    (sk : MPK × MSK) (cipher : SPK × C × SSig)
    (h : S.sigVfy (S.cipherToString cipher.2.1) cipher.2.2 cipher.1 = false) :
    S.dec sk cipher = (-1, S) := by
  unfold CCSfromIBE.dec
  simp [h]

/-- Witness for C5: the instance `CCS5`, whose verifier rejects, returns the
sentinel on a concrete ciphertext. -/
theorem ccs_dec_invalid_signature_sentinel_witness :
    CCS5.sigVfy (CCS5.cipherToString ()) () () = false ∧
      CCS5.dec ((), ()) ((), (), ()) = (-1, CCS5) :=
  ⟨rfl, ccs_dec_invalid_signature_sentinel CCS5 ((), ()) ((), (), ()) rfl⟩

/-- C6: `FDH::vfy` returns `true` if and only if the signature lies in the
declared domain and `f_a(pk, sigma)` equals `hash(m)`; its type takes no
trapdoor and returns no modified instance, so it neither uses the trapdoor
nor mutates the scheme. -/
theorem fdh_vfy_iff {A Td Dom Range : Type} [DecidableEq Range]
    (F : FDH A Td Dom Range) (m : String) (sigma : Dom) (pk : A) :
    F.vfy m sigma pk = true ↔
      (F.psf.checkDomain sigma = true ∧ F.psf.fA pk sigma = F.hash m) := by
  unfold FDH.vfy
  by_cases h : F.psf.checkDomain sigma
  · simp [h]
  · simp [h]

/-- C8: a second call to `FDH::sign` (respectively
`DualRegevIBE::extract`) with the identical message (identity) and key pair
on the same instance returns the stored `Domain` element bit-identically
and leaves the instance unchanged, for every outcome of the randomness of
either call; and both storages are append-only: an existing entry is never
removed or overwritten by `sign`/`extract`. -/
theorem sign_extract_memoized_append_only :
    (∀ (A Td Dom Range : Type) (F : FDH A Td Dom Range) (m : String)
        (sk : Td) (pk : A) (rand rand' : ℕ),
        (F.sign m sk pk rand).2.sign m sk pk rand' =
          ((F.sign m sk pk rand).1, (F.sign m sk pk rand).2)) ∧
    (∀ (A Td Dom Range : Type) (F : FDH A Td Dom Range) (m : String)
        (sk : Td) (pk : A) (rand : ℕ) (k : String) (v : Dom),
        F.storage.lookup k = some v →
        ((F.sign m sk pk rand).2).storage.lookup k = some v) ∧
    (∀ (PK SK0 SK1 Range Dom : Type) (I : DualRegevIBE PK SK0 SK1 Range Dom)
        (mpk : PK) (msk : SK0 × SK1) (identity : String) (rand rand' : ℕ),
        ((I.extract mpk msk identity rand).2).extract mpk msk identity rand' =
          ((I.extract mpk msk identity rand).1,
            (I.extract mpk msk identity rand).2)) ∧
    (∀ (PK SK0 SK1 Range Dom : Type) (I : DualRegevIBE PK SK0 SK1 Range Dom)
        (mpk : PK) (msk : SK0 × SK1) (identity : String) (rand : ℕ)
        (k : String) (v : Dom),
        I.storage.lookup k = some v →
        ((I.extract mpk msk identity rand).2).storage.lookup k = some v) := by
  refine ⟨?_, ?_, ?_, ?_⟩
  · intro A Td Dom Range F m sk pk rand rand'
    unfold FDH.sign
    cases h : F.storage.lookup m with
    | some sigma => simp [h]
    | none => simp [h, lookup_cons_split]
  · intro A Td Dom Range F m sk pk rand k v hk
    unfold FDH.sign
    cases h : F.storage.lookup m with
    | some sigma => simpa [h] using hk
    | none =>
        simp only [h]
        exact lookup_preserved_cons _ _ _ _ _ hk h
  · intro PK SK0 SK1 Range Dom I mpk msk identity rand rand'
    unfold DualRegevIBE.extract
    cases h : I.storage.lookup (I.extract_key mpk msk identity) with
    | some v => simp [h]
    | none => simp [h, lookup_cons_split, DualRegevIBE.extract_key]
  · intro PK SK0 SK1 Range Dom I mpk msk identity rand k v hk
    unfold DualRegevIBE.extract
    cases h : I.storage.lookup (I.extract_key mpk msk identity) with
    | some w => simpa [h] using hk
    | none =>
        simp only [h]
        exact lookup_preserved_cons _ _ _ _ _ hk h

/-- Witness for C8: on `F8` (a stored signature under key `"a"`) a fresh
`sign` of another message preserves the entry; on `DRI8` (a stored secret
key under `"k0"`) a fresh `extract` preserves the entry. -/
theorem sign_extract_memoized_append_only_witness :
    (F8.storage.lookup "a" = some 5 ∧
      ((F8.sign "b" 0 0 0).2).storage.lookup "a" = some 5) ∧
    (DRI8.storage.lookup "k0" = some 3 ∧
      ((DRI8.extract () ((), ()) "id" 0).2).storage.lookup "k0" = some 3) := by
  have h1 : F8.storage.lookup "a" = some (5 : ℤ) := by decide
  have h2 : DRI8.storage.lookup "k0" = some (3 : ℤ) := by decide
  exact ⟨⟨h1, sign_extract_memoized_append_only.2.1 ℤ ℤ ℤ ℤ F8 "b" 0 0 0 "a" 5 h1⟩,
    ⟨h2, sign_extract_memoized_append_only.2.2.2 Unit Unit Unit Unit ℤ DRI8 ()
      ((), ()) "id" 0 "k0" 3 h2⟩⟩

/-- C9: serializing an `FDH` instance and deserializing the result yields
an instance whose storage map is set-equal to the original — every stored
`(message, signature)` pair round-trips and all lookups agree — and
subsequent `sign`/`vfy` calls behave identically to the original. -/
theorem fdh_serialize_roundtrip {A Td Dom Range : Type} [DecidableEq Range]
    (F : FDH A Td Dom Range) (hnd : (F.storage.map Prod.fst).Nodup) :
    (∀ p : String × Dom,
      p ∈ (FDH.deserialize F.serialize).storage ↔ p ∈ F.storage) ∧
    (∀ k, (FDH.deserialize F.serialize).storage.lookup k = F.storage.lookup k) ∧
    (∀ (m : String) (sk : Td) (pk : A) (rand : ℕ),
      ((FDH.deserialize F.serialize).sign m sk pk rand).1 =
          (F.sign m sk pk rand).1 ∧
        ∀ k, (((FDH.deserialize F.serialize).sign m sk pk rand).2).storage.lookup k =
            ((F.sign m sk pk rand).2).storage.lookup k) ∧
    (∀ (m : String) (sigma : Dom) (pk : A),
      (FDH.deserialize F.serialize).vfy m sigma pk = F.vfy m sigma pk) := by
  have hst : (FDH.deserialize F.serialize).storage = F.storage.reverse := by
    show F.storage.foldl (fun a x => x :: a) [] = F.storage.reverse
    rw [foldl_cons_eq_reverse_append]
    simp
  have hpsf : (FDH.deserialize F.serialize).psf = F.psf := rfl
  have hhash : (FDH.deserialize F.serialize).hash = F.hash := rfl
  have hlook : ∀ k,
      (FDH.deserialize F.serialize).storage.lookup k = F.storage.lookup k := by
    intro k
    rw [hst]
    exact lookup_reverse_of_nodup_keys k F.storage hnd
  refine ⟨?_, hlook, ?_, ?_⟩
  · intro p
    rw [hst]
    exact List.mem_reverse
  · intro m sk pk rand
    constructor
    · unfold FDH.sign
      rw [hlook m]
      cases h : F.storage.lookup m with
      | some sigma => simp [h]
      | none => simp [h, hpsf, hhash]
    · intro k
      unfold FDH.sign
      rw [hlook m]
      cases h : F.storage.lookup m with
      | some sigma =>
          simp only [h]
          exact hlook k
      | none =>
          simp only [h]
          rw [lookup_cons_split, lookup_cons_split]
          by_cases hkm : k = m
          · simp [hkm, hpsf, hhash]
          · simp only [hkm, if_false]
            exact hlook k
  · intro m sigma pk
    rfl

/-- Witness for C9: the instance `F9`, whose single-entry storage has no
duplicate keys, verifies identically after a serialization round trip. -/
theorem fdh_serialize_roundtrip_witness :
    (F9.storage.map Prod.fst).Nodup ∧
      (FDH.deserialize F9.serialize).vfy "a" 0 0 = F9.vfy "a" 0 0 := by
  have hnd : (F9.storage.map Prod.fst).Nodup := by simp [F9]
  exact ⟨hnd, (fdh_serialize_roundtrip F9 hnd).2.2.2 "a" 0 0⟩

end QfallCrypto
